import Mathlib

/-!
Shallow embedding of `dask_searchcv/methods.py`: the fold-aware data cache,
sentinel-based failure propagation through fit / score / composite
reconstruction, and the aggregation of per-fold scores into a ranked
candidate table.  Numeric data is modelled over `ℚ`; matrices are lists of
rows; the `FIT_FAILURE` sentinel becomes a tagged variant.
-/

namespace DaskSearchCV

/-- A 2-D numeric container (rows of entries), standing for a numpy array /
sparse matrix handed to `safe_indexing` or to pairwise slicing. -/
abbrev Mat : Type := List (List ℚ)

/-- The `FIT_FAILURE` sentinel threaded through the evaluation layer:
a value is either the failure sentinel or a concrete `α`. -/
inductive FR (α : Type) where
  | failure : FR α
  | ok (a : α) : FR α
deriving DecidableEq, Repr

/-- Identity test `v is FIT_FAILURE`. -/
def FR.isFailure {α : Type} : FR α → Bool
  | .failure => true
  | .ok _ => false

/-- Embeds `sklearn.utils.safe_indexing(x, inds)`: row selection by a list of
positional indices (indices are in range in every use modelled here). -/
def safe_indexing (x : Mat) (inds : List ℕ) : Mat :=
  inds.map (fun i => x.getD i [])

/-- Memoization key `(n, is_x, is_train)` of `CVCache._extract` /
`CVCache._extract_pairwise`. -/
abbrev CacheKey : Type := ℕ × Bool × Bool

/-- The memoization table: an association list keyed by `CacheKey`. -/
abbrev CacheMap : Type := List (CacheKey × Mat)

/-- Lookup in the memoization table (`(n, key) in self.cache` plus
`self.cache[n, key]`). -/
def cacheGet (m : CacheMap) (k : CacheKey) : Option Mat :=
  match m with
  | [] => none
  | (k', v) :: rest => if k' = k then some v else cacheGet rest k

/-- The fold cache: fold splits (train-index list, test-index list per fold),
the pairwise-mode flag, and the optional memoization table (`none` models
`cache=None`, caching disabled). -/
structure CVCache where
  splits : List (List ℕ × List ℕ)
  pairwise : Bool
  cache : Option CacheMap
deriving DecidableEq, Repr

/-- The feature container `X` handed to an extraction call: its rows, and
whether it exposes a `.shape` attribute (pairwise mode requires one). -/
structure Feat where
  rows : Mat
  hasShape : Bool
deriving DecidableEq, Repr

/-- Shape component `X.shape[0]` of a feature container. -/
def Feat.nrows (X : Feat) : ℕ := X.rows.length

/-- Shape component `X.shape[1]` of a feature container. -/
def Feat.ncols (X : Feat) : ℕ := (X.rows.headD []).length

/-- The two `ValueError`s of `CVCache._extract_pairwise` (the spec's
`InvalidKernelError`): no 2-D shape exposed, or a non-square matrix. -/
inductive PairwiseError where
  | noShape : PairwiseError
  | notSquare : PairwiseError
deriving DecidableEq, Repr

/-- Embeds `X[np.ix_(ri, ci)]`: the submatrix with rows `ri` and columns `ci`. -/
def ixGrid (X : Mat) (ri ci : List ℕ) : Mat :=
  ri.map (fun i => ci.map (fun j => (X.getD i []).getD j 0))

/-- Embeds `CVCache._extract`: memoized train/test row-selection of `X` (if `is_x`)
or `y` by the fold's train or test index list.  Returns the subset and the
cache after the call (state-passing for the mutation of `self.cache`). -/
def CVCache._extract (c : CVCache) (X y : Mat) (n : ℕ) (is_x is_train : Bool) :
    Mat × CVCache :=
  match c.cache with
  | some m =>
    match cacheGet m (n, is_x, is_train) with
    | some v => (v, c)
    | none =>
      let inds := if is_train then (c.splits.getD n ([], [])).1
                  else (c.splits.getD n ([], [])).2
      let result := safe_indexing (if is_x then X else y) inds
      (result, { c with cache := some (((n, is_x, is_train), result) :: m) })
  | none =>
    let inds := if is_train then (c.splits.getD n ([], [])).1
                else (c.splits.getD n ([], [])).2
    (safe_indexing (if is_x then X else y) inds, c)

/-- Embeds `CVCache._extract_pairwise`: memoized kernel-matrix slicing.  Requires
`X` to expose a 2-D shape and be square; the train slice is
`X[np.ix_(train, train)]`, the test slice `X[np.ix_(test, train)]`.
The cache is consulted before validation, exactly as in the code. -/
def CVCache._extract_pairwise (c : CVCache) (X : Feat) (n : ℕ)
    (is_train : Bool) : Except PairwiseError Mat × CVCache :=
  match c.cache with
  | some m =>
    match cacheGet m (n, true, is_train) with
    | some v => (.ok v, c)
    | none =>
      if !X.hasShape then (.error .noShape, c)
      else if X.nrows ≠ X.ncols then (.error .notSquare, c)
      else
        let train := (c.splits.getD n ([], [])).1
        let test := (c.splits.getD n ([], [])).2
        let result := ixGrid X.rows (if is_train then train else test) train
        (.ok result, { c with cache := some (((n, true, is_train), result) :: m) })
  | none =>
    if !X.hasShape then (.error .noShape, c)
    else if X.nrows ≠ X.ncols then (.error .notSquare, c)
    else
      let train := (c.splits.getD n ([], [])).1
      let test := (c.splits.getD n ([], [])).2
      (.ok (ixGrid X.rows (if is_train then train else test) train), c)

/-- Embeds `CVCache.extract`: dispatch on `is_x` / pairwise mode / missing labels.
Returns `none` (inside `.ok`) when labels are requested but `y is None`. -/
def CVCache.extract (c : CVCache) (X : Feat) (y : Option Mat) (n : ℕ)
    (is_x is_train : Bool) : Except PairwiseError (Option Mat) × CVCache :=
  if is_x then
    if c.pairwise then
      let (r, c') := c._extract_pairwise X n is_train
      (r.map some, c')
    else
      let (r, c') := c._extract X.rows (y.getD []) n true is_train
      (.ok (some r), c')
  else
    match y with
    | none => (.ok none, c)
    | some yv =>
      let (r, c') := c._extract X.rows yv n false is_train
      (.ok (some r), c')

theorem cacheGet_cons_self (m : CacheMap) (k : CacheKey) (v : Mat) :
    cacheGet ((k, v) :: m) k = some v := by
  simp [cacheGet]

theorem _extract_idem (c : CVCache) (X y : Mat) (n : ℕ) (is_x is_train : Bool)
    (m : CacheMap) (hm : c.cache = some m) :
    (c._extract X y n is_x is_train).2._extract X y n is_x is_train
      = c._extract X y n is_x is_train := by
  cases hg : cacheGet m (n, is_x, is_train) with
  | some v => simp [CVCache._extract, hm, hg]
  | none => simp [CVCache._extract, hm, hg, cacheGet_cons_self]

theorem _extract_pairwise_idem (c : CVCache) (X : Feat) (n : ℕ)
    (is_train : Bool) (m : CacheMap) (hm : c.cache = some m) :
    (c._extract_pairwise X n is_train).2._extract_pairwise X n is_train
      = c._extract_pairwise X n is_train := by
  cases hg : cacheGet m (n, true, is_train) with
  | some v => simp [CVCache._extract_pairwise, hm, hg]
  | none =>
    by_cases hs : X.hasShape
    · by_cases hsq : X.nrows = X.ncols
      · simp [CVCache._extract_pairwise, hm, hg, hs, hsq, cacheGet_cons_self]
      · simp [CVCache._extract_pairwise, hm, hg, hs, hsq]
    · simp [CVCache._extract_pairwise, hm, hg, hs]

theorem _extract_pairwise_keeps (c : CVCache) (X : Feat) (n : ℕ)
    (is_train : Bool) :
    (c._extract_pairwise X n is_train).2.pairwise = c.pairwise ∧
    (c._extract_pairwise X n is_train).2.splits = c.splits := by
  cases hc : c.cache with
  | none =>
    by_cases hs : X.hasShape
    · by_cases hsq : X.nrows = X.ncols <;>
        simp [CVCache._extract_pairwise, hc, hs, hsq]
    · simp [CVCache._extract_pairwise, hc, hs]
  | some m =>
    cases hg : cacheGet m (n, true, is_train) with
    | some v => simp [CVCache._extract_pairwise, hc, hg]
    | none =>
      by_cases hs : X.hasShape
      · by_cases hsq : X.nrows = X.ncols <;>
          simp [CVCache._extract_pairwise, hc, hg, hs, hsq]
      · simp [CVCache._extract_pairwise, hc, hg, hs]

theorem _extract_keeps (c : CVCache) (X y : Mat) (n : ℕ) (is_x is_train : Bool) :
    (c._extract X y n is_x is_train).2.pairwise = c.pairwise ∧
    (c._extract X y n is_x is_train).2.splits = c.splits := by
  cases hc : c.cache with
  | none => simp [CVCache._extract, hc]
  | some m =>
    cases hg : cacheGet m (n, is_x, is_train) with
    | some v => simp [CVCache._extract, hc, hg]
    | none => simp [CVCache._extract, hc, hg]

/-- C1: with memoization enabled, a second `extract` call with the same
`(foldIndex, wantFeatures, wantTrain)` arguments returns the same subset
value and performs no recomputation: it leaves the cache state exactly as
the first call left it, returning the value stored under the key. -/
theorem extract_memoized_idempotent (c : CVCache) (X : Feat) (y : Option Mat)
    (n : ℕ) (is_x is_train : Bool) (m : CacheMap) (hm : c.cache = some m) :
    (c.extract X y n is_x is_train).2.extract X y n is_x is_train
      = c.extract X y n is_x is_train := by
  by_cases hx : is_x
  · by_cases hp : c.pairwise
    · have hkp := _extract_pairwise_keeps c X n is_train
      have hid := _extract_pairwise_idem c X n is_train m hm
      simp [CVCache.extract, hx, hp, hkp.1, hid]
    · have hkp := _extract_keeps c X.rows (y.getD []) n true is_train
      have hid := _extract_idem c X.rows (y.getD []) n true is_train m hm
      simp [CVCache.extract, hx, hp, hkp.1, hid]
  · cases y with
    | none => simp [CVCache.extract, hx]
    | some yv =>
      have hkp := _extract_keeps c X.rows yv n false is_train
      have hid := _extract_idem c X.rows yv n false is_train m hm
      simp [CVCache.extract, hx, hid]

/-- Witness for C1 at a concrete cache, dataset and fold. -/
theorem extract_memoized_idempotent_witness :
    (CVCache.mk [([0], [1])] false (some [])).cache = some [] ∧
    ((CVCache.mk [([0], [1])] false (some [])).extract
        ⟨[[1, 2], [3, 4]], true⟩ (some [[5], [6]]) 0 true true).2.extract
        ⟨[[1, 2], [3, 4]], true⟩ (some [[5], [6]]) 0 true true
      = (CVCache.mk [([0], [1])] false (some [])).extract
        ⟨[[1, 2], [3, 4]], true⟩ (some [[5], [6]]) 0 true true :=
  ⟨rfl, extract_memoized_idempotent (CVCache.mk [([0], [1])] false (some []))
    ⟨[[1, 2], [3, 4]], true⟩ (some [[5], [6]]) 0 true true [] rfl⟩

/-- The fold's train index list, `self.splits[n][0]`. -/
def CVCache.trainIdx (c : CVCache) (n : ℕ) : List ℕ := (c.splits.getD n ([], [])).1

/-- The fold's test index list, `self.splits[n][1]`. -/
def CVCache.testIdx (c : CVCache) (n : ℕ) : List ℕ := (c.splits.getD n ([], [])).2

theorem ixGrid_length (X : Mat) (ri ci : List ℕ) :
    (ixGrid X ri ci).length = ri.length := by
  simp [ixGrid]

theorem ixGrid_row_length (X : Mat) (ri ci : List ℕ) (i : ℕ)
    (hi : i < ri.length) :
    ((ixGrid X ri ci).getD i []).length = ci.length := by
  rw [show (ixGrid X ri ci).getD i [] = (ixGrid X ri ci).getD i
        ((fun i => ci.map (fun j => (X.getD i []).getD j 0)) 0) from ?_]
  · rw [ixGrid, List.getD_map]
    simp
  · unfold ixGrid
    rw [List.getD_eq_getElem _ _ (by simpa [ixGrid] using hi),
        List.getD_eq_getElem _ _ (by simpa [ixGrid] using hi)]

theorem ixGrid_entry (X : Mat) (ri ci : List ℕ) (i j : ℕ)
    (hi : i < ri.length) (hj : j < ci.length) :
    ((ixGrid X ri ci).getD i []).getD j 0
      = (X.getD (ri.getD i 0) []).getD (ci.getD j 0) 0 := by
  have h1 : (ixGrid X ri ci).getD i []
      = ci.map (fun j => (X.getD (ri.getD i 0) []).getD j 0) := by
    rw [List.getD_eq_getElem _ _ (by simpa [ixGrid] using hi)]
    unfold ixGrid
    rw [List.getElem_map]
    rw [List.getD_eq_getElem _ _ hi]
  rw [h1, List.getD_eq_getElem _ _ (by simpa using hj), List.getElem_map,
      List.getD_eq_getElem _ _ hj]

/-- C7: in pairwise mode, on a key not yet memoized, extraction fails with
the kernel validation error whenever the feature container lacks a 2-D
shape or is not square; on a square container the produced slice has shape
(|train|, |train|) for the train slice and (|test|, |train|) for the test
slice, with entry (i, j) read from `X` at row `sel[i]` and column
`train[j]` (where `sel` is the train or test index list). -/
theorem extract_pairwise_spec (c : CVCache) (X : Feat) (y : Option Mat)
    (n : ℕ) (is_train : Bool) (hp : c.pairwise = true)
    (hmiss : ∀ m, c.cache = some m → cacheGet m (n, true, is_train) = none) :
    (X.hasShape = false →
      (c.extract X y n true is_train).1 = .error .noShape) ∧
    (X.hasShape = true → X.nrows ≠ X.ncols →
      (c.extract X y n true is_train).1 = .error .notSquare) ∧
    (X.hasShape = true → X.nrows = X.ncols →
      ∃ r : Mat, (c.extract X y n true is_train).1 = .ok (some r) ∧
        r.length = (if is_train then c.trainIdx n else c.testIdx n).length ∧
        (∀ i, i < r.length → (r.getD i []).length = (c.trainIdx n).length) ∧
        (∀ i j, i < (if is_train then c.trainIdx n else c.testIdx n).length →
          j < (c.trainIdx n).length →
          (r.getD i []).getD j 0
            = (X.rows.getD
                ((if is_train then c.trainIdx n else c.testIdx n).getD i 0) []).getD
                ((c.trainIdx n).getD j 0) 0)) := by
  have hbody : (c._extract_pairwise X n is_train).1 =
      (if !X.hasShape then .error .noShape
       else if X.nrows ≠ X.ncols then .error .notSquare
       else .ok (ixGrid X.rows
          (if is_train then c.trainIdx n else c.testIdx n) (c.trainIdx n))) := by
    cases hc : c.cache with
    | none =>
      simp only [CVCache._extract_pairwise, hc, CVCache.trainIdx, CVCache.testIdx]
      by_cases hs : X.hasShape
      · by_cases hsq : X.nrows = X.ncols <;> simp [hs, hsq]
      · simp [hs]
    | some m =>
      have hg := hmiss m hc
      simp only [CVCache._extract_pairwise, hc, hg, CVCache.trainIdx, CVCache.testIdx]
      by_cases hs : X.hasShape
      · by_cases hsq : X.nrows = X.ncols <;> simp [hs, hsq]
      · simp [hs]
  have hext : (c.extract X y n true is_train).1
      = ((c._extract_pairwise X n is_train).1).map some := by
    simp [CVCache.extract, hp]
  refine ⟨?_, ?_, ?_⟩
  · intro hs
    rw [hext, hbody]
    simp [hs, Except.map]
  · intro hs hsq
    rw [hext, hbody]
    simp [hs, hsq, Except.map]
  · intro hs hsq
    refine ⟨ixGrid X.rows (if is_train then c.trainIdx n else c.testIdx n)
      (c.trainIdx n), ?_, ?_, ?_, ?_⟩
    · rw [hext, hbody]
      simp [hs, hsq, Except.map]
    · rw [ixGrid_length]
    · intro i hi
      rw [ixGrid_length] at hi
      exact ixGrid_row_length _ _ _ _ hi
    · intro i j hi hj
      exact ixGrid_entry _ _ _ _ _ hi hj

/-- Witness for C7: a square 2×2 kernel, one fold with train = [0],
test = [1]; the test slice is the 1×1 matrix holding X[1][0]. -/
theorem extract_pairwise_spec_witness :
    ∃ r : Mat,
      ((CVCache.mk [([0], [1])] true (some [])).extract
          ⟨[[1, 2], [3, 4]], true⟩ none 0 true false).1 = .ok (some r) ∧
      r.length = (if false then (CVCache.mk [([0], [1])] true (some [])).trainIdx 0
                  else (CVCache.mk [([0], [1])] true (some [])).testIdx 0).length ∧
      (∀ i, i < r.length →
        (r.getD i []).length
          = ((CVCache.mk [([0], [1])] true (some [])).trainIdx 0).length) ∧
      (∀ i j,
        i < (if false then (CVCache.mk [([0], [1])] true (some [])).trainIdx 0
             else (CVCache.mk [([0], [1])] true (some [])).testIdx 0).length →
        j < ((CVCache.mk [([0], [1])] true (some [])).trainIdx 0).length →
        (r.getD i []).getD j 0
          = (List.getD [[1, 2], [3, 4]]
              ((if false then (CVCache.mk [([0], [1])] true (some [])).trainIdx 0
                else (CVCache.mk [([0], [1])] true (some [])).testIdx 0).getD i 0) []).getD
              (((CVCache.mk [([0], [1])] true (some [])).trainIdx 0).getD j 0) 0) :=
  (extract_pairwise_spec (CVCache.mk [([0], [1])] true (some []))
      ⟨[[1, 2], [3, 4]], true⟩ none 0 false rfl
      (fun m hm => by cases hm; rfl)).2.2 rfl rfl

/-! ### Composite reconstruction and scoring -/

/-- An opaque model handle: a leaf estimator, a `Pipeline` of named steps,
or a `FeatureUnion` of named branches with optional transformer weights. -/
inductive Model where
  | leaf (id : ℕ) : Model
  | pipe (steps : List (String × Model)) : Model
  | union (steps : List (String × Model)) (weights : List (Option ℚ)) : Model

/-- A fitted-step result is either a model or the `FIT_FAILURE` sentinel. -/
abbrev MRes : Type := FR Model

/-- Read the model out of a non-failure step result (junk on `failure`;
only used under a no-failure guard, as in the source). -/
def unwrapModel : MRes → Model
  | .failure => .leaf 0
  | .ok m => m

/-- Embeds `pipeline(names, steps)`: reconstruct a `Pipeline` from names and
fitted steps, short-circuiting to `FIT_FAILURE` if any step failed. -/
def pipeline (names : List String) (steps : List MRes) : MRes :=
  if steps.any FR.isFailure then .failure
  else .ok (.pipe (names.zip (steps.map unwrapModel)))

/-- Embeds `feature_union(names, steps, weights)`: reconstruct a `FeatureUnion`,
short-circuiting to `FIT_FAILURE` if any step failed. -/
def feature_union (names : List String) (steps : List MRes)
    (weights : List (Option ℚ)) : MRes :=
  if steps.any FR.isFailure then .failure
  else .ok (.union (names.zip (steps.map unwrapModel)) weights)

/-- An externally supplied scorer capability `(model, X[, y]) -> scalar`. -/
abbrev Scorer : Type := Model → Mat → Option Mat → ℚ

/-- Embeds `_score(est, X, y, scorer)`: `FIT_FAILURE` passes through; otherwise
the scorer is applied (with `y` when present). -/
def _score (est : FR Model) (X : Mat) (y : Option Mat) (scorer : Scorer) :
    FR ℚ :=
  match est with
  | .failure => .failure
  | .ok m => .ok (scorer m X y)

/-- The value returned by `score`: a bare test score, or a
`(test_score, train_score)` pair when a train score was requested. -/
inductive ScoreOut where
  | single (t : FR ℚ) : ScoreOut
  | pair (t tr : FR ℚ) : ScoreOut
deriving DecidableEq, Repr

/-- Embeds `score(est, X_test, y_test, X_train, y_train, scorer)`: test score, and
also a train score when `X_train` is not `None`. -/
def score (est : FR Model) (X_test : Mat) (y_test : Option Mat)
    (X_train y_train : Option Mat) (scorer : Scorer) : ScoreOut :=
  let test_score := _score est X_test y_test scorer
  match X_train with
  | none => .single test_score
  | some xt => .pair test_score (_score est xt y_train scorer)

/-- C2: composite reconstruction returns `FIT_FAILURE` exactly when some
step or branch failed, and otherwise zips names with the fitted steps in
order; `score` on a failed model returns `FIT_FAILURE` as the test score,
and also as the train score whenever one is requested. -/
theorem composite_failure_propagation (names : List String)
    (steps : List MRes) (weights : List (Option ℚ)) (Xt : Mat)
    (yt Xtr ytr : Option Mat) (scorer : Scorer) :
    (steps.any FR.isFailure = true →
      pipeline names steps = .failure ∧
      feature_union names steps weights = .failure) ∧
    (steps.any FR.isFailure = false →
      pipeline names steps = .ok (.pipe (names.zip (steps.map unwrapModel))) ∧
      feature_union names steps weights
        = .ok (.union (names.zip (steps.map unwrapModel)) weights)) ∧
    score .failure Xt yt Xtr ytr scorer
      = (match Xtr with
         | none => .single .failure
         | some _ => .pair .failure .failure) := by
  refine ⟨?_, ?_, ?_⟩
  · intro h
    simp [pipeline, feature_union, h]
  · intro h
    simp [pipeline, feature_union, h]
  · cases Xtr <;> simp [score, _score]

/-- Witness for C2 at concrete steps and containers. -/
theorem composite_failure_propagation_witness :
    (pipeline ["a", "b"] [.ok (.leaf 1), .failure] = .failure ∧
      feature_union ["a", "b"] [.ok (.leaf 1), .failure] [none, none]
        = .failure) ∧
    score .failure [[1]] none (some [[2]]) none (fun _ _ _ => 0)
      = .pair .failure .failure :=
  ⟨(composite_failure_propagation ["a", "b"] [.ok (.leaf 1), .failure]
      [none, none] [[1]] none (some [[2]]) none (fun _ _ _ => 0)).1 rfl,
   (composite_failure_propagation ["a", "b"] [.ok (.leaf 1), .failure]
      [none, none] [[1]] none (some [[2]]) none (fun _ _ _ => 0)).2.2⟩

/-! ### Parameter application and fitting -/

/-- A fault raised by an external capability (clone, set-parameters, fit,
transform), identified by its message. -/
abbrev Fault : Type := String

/-- A compressed overlay value: the `MISSING` sentinel or a concrete value. -/
inductive PValue where
  | missing : PValue
  | val (v : ℚ) : PValue
deriving DecidableEq, Repr

/-- The external capability bundle of an estimator: clone
(`copy_estimator`), set-parameters, fit, transform, and the optional
combined fit-transform (`none` models `not hasattr(est, 'fit_transform')`).
Each capability may raise a fault. -/
structure Caps where
  copyE : Model → Except Fault Model
  setP : Model → List (String × ℚ) → Except Fault Model
  fitI : Model → Mat → Option Mat → List (String × ℚ) → Except Fault Model
  transI : Model → Mat → Except Fault Mat
  ftI : Option (Model → Mat → Option Mat → List (String × ℚ) →
          Except Fault (Model × Mat))

/-- Embeds `set_params(est, fields, params, copy)`: optionally clone, return the
clone unchanged when `fields is None`, otherwise drop `MISSING` entries
from the zipped overlay and apply the remaining sparse mapping. -/
def set_params (caps : Caps) (est : Model) (fields : Option (List String))
    (params : List PValue) (copy : Bool) : Except Fault Model := do
  let est ← if copy then caps.copyE est else .ok est
  match fields with
  | none => .ok est
  | some fs =>
    let ps := (fs.zip params).filterMap
      (fun fp => match fp.2 with | .missing => none | .val v => some (fp.1, v))
    caps.setP est ps

/-- The `error_score` argument: the string `'raise'` or a number. -/
inductive ErrorScore where
  | raise : ErrorScore
  | num (q : ℚ) : ErrorScore
deriving DecidableEq, Repr

/-- Embeds `warn_fit_failure(error_score, e)`: the emitted non-fatal
`FitFailedWarning`, carrying the configured error score and the fault. -/
def warn_fit_failure (error_score : ℚ) (e : Fault) : ℚ × Fault :=
  (error_score, e)

/-- The observable outcome of `fit`: the fault propagated out of the call,
or a returned model/`FIT_FAILURE` together with the warnings emitted. -/
inductive FitOut where
  | raised (f : Fault) : FitOut
  | returned (r : FR Model) (warns : List (ℚ × Fault)) : FitOut

/-- The body of `fit`'s `try` block: `set_params` (with cloning) followed
by the fit capability. -/
def fitBody (caps : Caps) (est : Model) (X : Mat) (y : Option Mat)
    (fields : Option (List String)) (params : List PValue)
    (fit_params : List (String × ℚ)) : Except Fault Model := do
  let est ← set_params caps est fields params true
  caps.fitI est X y fit_params

/-- Embeds `fit(est, X, y, error_score, fields, params, fit_params)`:
short-circuit to `FIT_FAILURE` when the model or `X` is already
`FIT_FAILURE`; otherwise run the `try` block, and on a fault either
re-raise (`error_score == 'raise'`) or warn and return `FIT_FAILURE`. -/
def fit (caps : Caps) (est : FR Model) (X : FR Mat) (y : Option Mat)
    (error_score : ErrorScore) (fields : Option (List String))
    (params : List PValue) (fit_params : List (String × ℚ)) : FitOut :=
  match est, X with
  | .failure, _ => .returned .failure []
  | _, .failure => .returned .failure []
  | .ok e, .ok x =>
    match fitBody caps e x y fields params fit_params with
    | .ok e' => .returned (.ok e') []
    | .error f =>
      match error_score with
      | .raise => .raised f
      | .num q => .returned .failure [warn_fit_failure q f]

/-- The observable outcome of `fit_transform`: a propagated fault, or the
returned `(est, Xt)` pair together with the warnings emitted. -/
inductive FTOut where
  | raised (f : Fault) : FTOut
  | returned (est : FR Model) (Xt : FR Mat) (warns : List (ℚ × Fault)) : FTOut

/-- The body of `fit_transform`'s `try` block: `set_params`, then the
combined fit-transform capability when present, else fit followed by
transform. -/
def fitTransformBody (caps : Caps) (est : Model) (X : Mat) (y : Option Mat)
    (fields : Option (List String)) (params : List PValue)
    (fit_params : List (String × ℚ)) : Except Fault (Model × Mat) := do
  let est ← set_params caps est fields params true
  match caps.ftI with
  | some ft => ft est X y fit_params
  | none => do
    let e' ← caps.fitI est X y fit_params
    let xt ← caps.transI e' X
    return (e', xt)

/-- Embeds `fit_transform(est, X, y, error_score, fields, params, fit_params)`:
as `fit`, but both outputs become `FIT_FAILURE` together on a fault. -/
def fit_transform (caps : Caps) (est : FR Model) (X : FR Mat)
    (y : Option Mat) (error_score : ErrorScore)
    (fields : Option (List String)) (params : List PValue)
    (fit_params : List (String × ℚ)) : FTOut :=
  match est, X with
  | .failure, _ => .returned .failure .failure []
  | _, .failure => .returned .failure .failure []
  | .ok e, .ok x =>
    match fitTransformBody caps e x y fields params fit_params with
    | .ok r => .returned (.ok r.1) (.ok r.2) []
    | .error f =>
      match error_score with
      | .raise => .raised f
      | .num q => .returned .failure .failure [warn_fit_failure q f]

/-- C3: `fit` short-circuits to `FIT_FAILURE` (no computation, for every
capability bundle) when the model or `X` is already `FIT_FAILURE`;
otherwise, when the try block raises a fault, the fault is propagated
under `error_score='raise'` and a single warning carrying the error score
and the fault is emitted with a `FIT_FAILURE` result under any numeric
error score. -/
theorem fit_error_policy (caps : Caps) (est : FR Model) (X : FR Mat)
    (y : Option Mat) (es : ErrorScore) (fields : Option (List String))
    (params : List PValue) (fp : List (String × ℚ)) :
    ((est.isFailure = true ∨ X.isFailure = true) →
      fit caps est X y es fields params fp = .returned .failure []) ∧
    (∀ e x f, est = .ok e → X = .ok x →
      fitBody caps e x y fields params fp = .error f →
      (es = .raise → fit caps est X y es fields params fp = .raised f) ∧
      (∀ q, es = .num q →
        fit caps est X y es fields params fp
          = .returned .failure [warn_fit_failure q f])) := by
  constructor
  · intro h
    match est, X with
    | .failure, .failure => rfl
    | .failure, .ok x => rfl
    | .ok e, .failure => rfl
    | .ok e, .ok x => simp [FR.isFailure] at h
  · intro e x f he hx hb
    subst he hx
    constructor
    · intro hes
      subst hes
      simp [fit, hb]
    · intro q hes
      subst hes
      simp [fit, hb]

/-- Witness for C3: a leaf estimator whose fit capability faults, under
both error policies, plus the short-circuit on a failed model. -/
theorem fit_error_policy_witness :
    (fit ⟨fun m => .ok m, fun m _ => .ok m,
        fun _ _ _ _ => .error "boom", fun _ x => .ok x, none⟩
      .failure (.ok [[1]]) none .raise none [] [] = .returned .failure []) ∧
    (fit ⟨fun m => .ok m, fun m _ => .ok m,
        fun _ _ _ _ => .error "boom", fun _ x => .ok x, none⟩
      (.ok (.leaf 0)) (.ok [[1]]) none .raise none [] [] = .raised "boom") ∧
    (fit ⟨fun m => .ok m, fun m _ => .ok m,
        fun _ _ _ _ => .error "boom", fun _ x => .ok x, none⟩
      (.ok (.leaf 0)) (.ok [[1]]) none (.num 0) none [] []
        = .returned .failure [warn_fit_failure 0 "boom"]) :=
  ⟨(fit_error_policy ⟨fun m => .ok m, fun m _ => .ok m,
        fun _ _ _ _ => .error "boom", fun _ x => .ok x, none⟩
      .failure (.ok [[1]]) none .raise none [] []).1 (Or.inl rfl),
   ((fit_error_policy ⟨fun m => .ok m, fun m _ => .ok m,
        fun _ _ _ _ => .error "boom", fun _ x => .ok x, none⟩
      (.ok (.leaf 0)) (.ok [[1]]) none .raise none [] []).2
      (.leaf 0) [[1]] "boom" rfl rfl rfl).1 rfl,
   ((fit_error_policy ⟨fun m => .ok m, fun m _ => .ok m,
        fun _ _ _ _ => .error "boom", fun _ x => .ok x, none⟩
      (.ok (.leaf 0)) (.ok [[1]]) none (.num 0) none [] []).2
      (.leaf 0) [[1]] "boom" rfl rfl rfl).2 0 rfl⟩

/-- C10: under a numeric error policy, a fault raised inside
`set_params` itself (cloning or overlay application) is caught by `fit`
and `fit_transform` exactly like a fit fault: a warning is emitted and
`FIT_FAILURE` is returned (both outputs for `fit_transform`). -/
theorem set_params_fault_caught (caps : Caps) (e : Model) (x : Mat)
    (y : Option Mat) (q : ℚ) (fields : Option (List String))
    (params : List PValue) (fp : List (String × ℚ)) (f : Fault)
    (h : set_params caps e fields params true = .error f) :
    fit caps (.ok e) (.ok x) y (.num q) fields params fp
      = .returned .failure [warn_fit_failure q f] ∧
    fit_transform caps (.ok e) (.ok x) y (.num q) fields params fp
      = .returned .failure .failure [warn_fit_failure q f] := by
  have hb : fitBody caps e x y fields params fp = .error f := by
    unfold fitBody
    rw [h]
    rfl
  have hbt : fitTransformBody caps e x y fields params fp = .error f := by
    unfold fitTransformBody
    rw [h]
    rfl
  exact ⟨by simp [fit, hb], by simp [fit_transform, hbt]⟩

/-- Witness for C10: a capability bundle whose clone capability faults. -/
theorem set_params_fault_caught_witness :
    fit ⟨fun _ => .error "bad clone", fun m _ => .ok m,
        fun m _ _ _ => .ok m, fun _ x => .ok x, none⟩
      (.ok (.leaf 0)) (.ok [[1]]) none (.num 0) (some ["a"]) [.val 1] []
      = .returned .failure [warn_fit_failure 0 "bad clone"] ∧
    fit_transform ⟨fun _ => .error "bad clone", fun m _ => .ok m,
        fun m _ _ _ => .ok m, fun _ x => .ok x, none⟩
      (.ok (.leaf 0)) (.ok [[1]]) none (.num 0) (some ["a"]) [.val 1] []
      = .returned .failure .failure [warn_fit_failure 0 "bad clone"] :=
  set_params_fault_caught ⟨fun _ => .error "bad clone", fun m _ => .ok m,
      fun m _ _ _ => .ok m, fun _ x => .ok x, none⟩
    (.leaf 0) [[1]] none 0 (some ["a"]) [.val 1] [] "bad clone" rfl

/-! ### Weighted concatenation of feature-union branch outputs -/

/-- A feature block: the dense / sparse storage formats share their
numeric content and differ only in the format tag. -/
inductive Block where
  | dense (rows : Mat) : Block
  | sparse (rows : Mat) : Block
deriving DecidableEq, Repr

/-- Embeds `scipy.sparse.issparse`. -/
def Block.isSparse : Block → Bool
  | .sparse _ => true
  | .dense _ => false

/-- The numeric content of a block. -/
def Block.rows : Block → Mat
  | .dense r => r
  | .sparse r => r

/-- Embeds `X * w`: elementwise scaling by a branch weight (format preserved). -/
def Block.scale (b : Block) (w : ℚ) : Block :=
  match b with
  | .dense r => .dense (r.map (fun row => row.map (fun e => e * w)))
  | .sparse r => .sparse (r.map (fun row => row.map (fun e => e * w)))

/-- A feature-union branch output: the `FIT_FAILURE` sentinel, `None`
(a dropped branch), or a feature block. -/
inductive XRes where
  | failure : XRes
  | null : XRes
  | block (b : Block) : XRes
deriving DecidableEq, Repr

/-- Identity test `x is FIT_FAILURE` on a branch output. -/
def XRes.isFailure : XRes → Bool
  | .failure => true
  | _ => false

/-- The comprehension
`[X if w is None else X*w for X, w in zip(Xs, weights) if X is not None]`:
drop `None` branches, scale weighted ones.  (The `FIT_FAILURE` arm is
unreachable: `feature_union_concat` only reaches the comprehension after
its failure guard.) -/
def survivors (Xs : List XRes) (weights : List (Option ℚ)) : List Block :=
  (Xs.zip weights).filterMap (fun p =>
    match p.1 with
    | .failure => none
    | .null => none
    | .block b =>
      some (match p.2 with
            | none => b
            | some w => b.scale w))

/-- Embeds `np.hstack` / `sparse.hstack` on two blocks: row-wise concatenation
along the feature axis (all uses have equal row counts). -/
def hstack2 (a b : Mat) : Mat :=
  List.zipWith (fun r s => r ++ s) a b

/-- Embeds `np.hstack` / `sparse.hstack` over a non-empty list of blocks. -/
def hstackAll : List Mat → Mat
  | [] => []
  | m :: ms => ms.foldl hstack2 m

/-- Embeds `feature_union_concat(Xs, nsamples, weights)`: `FIT_FAILURE` if any
branch failed; otherwise weight and concatenate the surviving branches,
yielding `np.zeros((nsamples, 0))` when none survive, and a sparse result
exactly when some surviving branch is sparse. -/
def feature_union_concat (Xs : List XRes) (nsamples : ℕ)
    (weights : List (Option ℚ)) : FR Block :=
  if Xs.any XRes.isFailure then .failure
  else
    let xs := survivors Xs weights
    if xs.isEmpty then .ok (.dense (List.replicate nsamples []))
    else if xs.any Block.isSparse then .ok (.sparse (hstackAll (xs.map Block.rows)))
    else .ok (.dense (hstackAll (xs.map Block.rows)))

/-! ### Result aggregation -/

/-- A decompressed candidate overlay: the sparse `(name, value)` mapping. -/
abbrev Overlay : Type := List (String × ℚ)

/-- Embeds `np.average(xs, weights)`: the plain mean without weights, the
weighted mean `sum(xs*w)/sum(w)` with them. -/
def wavg (xs : List ℚ) (ws : Option (List ℚ)) : ℚ :=
  match ws with
  | none => xs.sum / xs.length
  | some w => (List.zipWith (fun a b => a * b) xs w).sum / w.sum

/-- Embeds `[error_score if s is FIT_FAILURE else s for s in scores]`. -/
def replaceFailures (error_score : ℚ) (scores : List (FR ℚ)) : List ℚ :=
  scores.map (fun s => match s with | .failure => error_score | .ok q => q)

/-- Candidate `i`'s per-fold scores: row `i` of
`array.reshape(n_splits, n_candidates).T` in `_store` (the flat score list
is iterated first by splits and then by candidates). -/
def candScores (a : List ℚ) (n_splits n_candidates i : ℕ) : List ℚ :=
  (List.range n_splits).map (fun f => a.getD (f * n_candidates + i) 0)

/-- Column `array[:, split_i]` stored as `split<i>_<key>` by `_store`. -/
def splitColumn (a : List ℚ) (n_splits n_candidates f : ℕ) : List ℚ :=
  (List.range n_candidates).map (fun i => a.getD (f * n_candidates + i) 0)

/-- Column `mean_<key>` of `_store`: per-candidate (weighted) mean across folds. -/
def storeMeans (a : List ℚ) (n_splits n_candidates : ℕ)
    (ws : Option (List ℚ)) : List ℚ :=
  (List.range n_candidates).map (fun i => wavg (candScores a n_splits n_candidates i) ws)

/-- The squared `std_<key>` of `_store`: per-candidate (weighted) average
of squared deviations from the mean, before `np.sqrt`. -/
def storeVariances (a : List ℚ) (n_splits n_candidates : ℕ)
    (ws : Option (List ℚ)) : List ℚ :=
  (List.range n_candidates).map (fun i =>
    wavg ((candScores a n_splits n_candidates i).map
      (fun x => (x - wavg (candScores a n_splits n_candidates i) ws) ^ 2)) ws)

/-- Column `std_<key>` of `_store`: `np.sqrt` of the weighted average of squared
deviations. -/
noncomputable def storeStds (a : List ℚ) (n_splits n_candidates : ℕ)
    (ws : Option (List ℚ)) : List ℝ :=
  (storeVariances a n_splits n_candidates ws).map
    (fun v : ℚ => Real.sqrt (v : ℝ))

/-- Embeds scipy's `rankdata(a, method='min')`, modelled from its documented
semantics: each entry's rank is one plus the number of entries strictly
smaller than it (ties share the smallest rank). -/
def rankdata_min (a : List ℚ) : List ℕ :=
  a.map (fun x => (a.filter (fun y => y < x)).length + 1)

/-- Column `rank_<key>` of `_store`: `rankdata(-array_means, method='min')`. -/
def storeRanks (means : List ℚ) : List ℕ :=
  rankdata_min (means.map (fun m => -m))

/-- The parameter names observed across all candidate overlays, in order
of first observation (the defaultdict's insertion order). -/
def observedNames (cands : List Overlay) : List String :=
  ((cands.map (fun ov => ov.map Prod.fst)).flatten).foldl
    (fun acc nm => if nm ∈ acc then acc else acc ++ [nm]) []

/-- A `param_<name>` cell: the candidate's value when its overlay binds
the name, masked (`none`) otherwise. -/
def overlayLookup (nm : String) (ov : Overlay) : Option ℚ :=
  (ov.find? (fun p => p.1 == nm)).map Prod.snd

/-- The masked `param_<name>` columns: one per observed name, holding each
candidate's value where bound and masked cells elsewhere. -/
def paramColumns (cands : List Overlay) : List (String × List (Option ℚ)) :=
  (observedNames cands).map (fun nm =>
    ("param_" ++ nm, cands.map (fun ov => overlayLookup nm ov)))

/-- The `scores` argument of `create_cv_results`: a list of test scores,
or a list of `(test, train)` pairs. -/
inductive ScoresIn where
  | single (l : List (FR ℚ)) : ScoresIn
  | paired (l : List (FR ℚ × FR ℚ)) : ScoresIn

/-- The local `test_scores` of `create_cv_results`, failures replaced. -/
def testScoresOf (scores : ScoresIn) (error_score : ℚ) : List ℚ :=
  match scores with
  | .single l => replaceFailures error_score l
  | .paired l => replaceFailures error_score (l.map Prod.fst)

/-- The local `train_scores` of `create_cv_results` (absent for bare test
scores), failures replaced. -/
def trainScoresOf (scores : ScoresIn) (error_score : ℚ) : Option (List ℚ) :=
  match scores with
  | .single _ => none
  | .paired l => some (replaceFailures error_score (l.map Prod.snd))

/-- The `cv_results_` table built by `create_cv_results` (standard
deviations are recovered from the variance columns via `np.sqrt`). -/
structure CVResults where
  params : List Overlay
  splitTest : List (List ℚ)
  meanTest : List ℚ
  varTest : List ℚ
  rankTest : List ℕ
  splitTrain : Option (List (List ℚ))
  meanTrain : Option (List ℚ)
  varTrain : Option (List ℚ)
  paramCols : List (String × List (Option ℚ))

/-- Embeds `create_cv_results(scores, candidate_params, n_splits, error_score,
weights)`: replace failures, store per-split columns, weighted mean / std
and the min-tie rank for test scores, the same minus the rank for train
scores when present, and the masked parameter columns. -/
def create_cv_results (scores : ScoresIn) (candidate_params : List Overlay)
    (n_splits : ℕ) (error_score : ℚ) (weights : Option (List ℚ)) :
    CVResults :=
  { params := candidate_params
    splitTest := (List.range n_splits).map
      (fun f => splitColumn (testScoresOf scores error_score) n_splits
        candidate_params.length f)
    meanTest := storeMeans (testScoresOf scores error_score) n_splits
      candidate_params.length weights
    varTest := storeVariances (testScoresOf scores error_score) n_splits
      candidate_params.length weights
    rankTest := storeRanks (storeMeans (testScoresOf scores error_score)
      n_splits candidate_params.length weights)
    splitTrain := (trainScoresOf scores error_score).map (fun ts =>
      (List.range n_splits).map
        (fun f => splitColumn ts n_splits candidate_params.length f))
    meanTrain := (trainScoresOf scores error_score).map (fun ts =>
      storeMeans ts n_splits candidate_params.length weights)
    varTrain := (trainScoresOf scores error_score).map (fun ts =>
      storeVariances ts n_splits candidate_params.length weights)
    paramCols := paramColumns candidate_params }

/-- Embeds `get_best_params(candidate_params, cv_results)`: the overlay of the
first candidate ranked 1 (`none` models the `IndexError` when no rank-1
entry or no such candidate exists). -/
def get_best_params (candidate_params : List Overlay)
    (cv_results : CVResults) : Option Overlay :=
  (cv_results.rankTest.findIdx? (fun r => r == 1)).bind
    (fun i => candidate_params[i]?)

/-- C6: branch concatenation propagates `FIT_FAILURE`; with no failure it
yields the empty `(nsamples, 0)` block when every branch is dropped, a
sparse block exactly when some surviving branch is sparse, and a dense
one otherwise; a branch weight of 2 scales every entry of the branch by
exactly 2 before concatenation. -/
theorem feature_union_concat_spec (Xs : List XRes) (n : ℕ)
    (ws : List (Option ℚ)) :
    (Xs.any XRes.isFailure = true → feature_union_concat Xs n ws = .failure) ∧
    (Xs.any XRes.isFailure = false → survivors Xs ws = [] →
      feature_union_concat Xs n ws = .ok (.dense (List.replicate n [])) ∧
      (List.replicate n ([] : List ℚ)).length = n ∧
      ∀ row ∈ List.replicate n ([] : List ℚ), row.length = 0) ∧
    (Xs.any XRes.isFailure = false → survivors Xs ws ≠ [] →
      feature_union_concat Xs n ws
        = .ok (if (survivors Xs ws).any Block.isSparse
               then .sparse (hstackAll ((survivors Xs ws).map Block.rows))
               else .dense (hstackAll ((survivors Xs ws).map Block.rows)))) ∧
    feature_union_concat [.block (.dense [[1, 3], [2, 4]])] 2 [some 2]
      = .ok (.dense [[2, 6], [4, 8]]) := by
  refine ⟨?_, ?_, ?_, ?_⟩
  · intro h
    simp [feature_union_concat, h]
  · intro h hs
    refine ⟨?_, by simp, by simp⟩
    simp [feature_union_concat, h, hs]
  · intro h hs
    by_cases hsp : (survivors Xs ws).any Block.isSparse
    · simp [feature_union_concat, h, List.isEmpty_iff, hs, hsp]
    · simp [feature_union_concat, h, List.isEmpty_iff, hs, hsp]
  · norm_num [feature_union_concat, survivors, Block.scale, Block.rows,
      hstackAll, hstack2, XRes.isFailure, Block.isSparse, List.isEmpty,
      List.filterMap_cons, List.filterMap_nil, List.zipWith]

/-- Witness for C6 at concrete branch lists: a failing branch, an
all-dropped union, and a mixed sparse/dense union. -/
theorem feature_union_concat_spec_witness :
    feature_union_concat [.block (.dense [[1]]), .failure] 1 [none, none]
      = .failure ∧
    feature_union_concat [.null, .null] 3 [none, none]
      = .ok (.dense (List.replicate 3 [])) ∧
    feature_union_concat [.block (.sparse [[1]]), .block (.dense [[2]])] 1
        [none, none]
      = .ok (if (survivors [.block (.sparse [[1]]), .block (.dense [[2]])]
                  [none, none]).any Block.isSparse
             then .sparse (hstackAll
               ((survivors [.block (.sparse [[1]]), .block (.dense [[2]])]
                  [none, none]).map Block.rows))
             else .dense (hstackAll
               ((survivors [.block (.sparse [[1]]), .block (.dense [[2]])]
                  [none, none]).map Block.rows))) :=
  ⟨(feature_union_concat_spec [.block (.dense [[1]]), .failure] 1
      [none, none]).1 rfl,
   ((feature_union_concat_spec [.null, .null] 3 [none, none]).2.1
      rfl rfl).1,
   (feature_union_concat_spec [.block (.sparse [[1]]), .block (.dense [[2]])]
      1 [none, none]).2.2.1 rfl (by simp [survivors])⟩

/-! ### Ranking -/

theorem storeRanks_length (means : List ℚ) :
    (storeRanks means).length = means.length := by
  simp [storeRanks, rankdata_min]

theorem storeRanks_getD (means : List ℚ) (i : ℕ) (hi : i < means.length) :
    (storeRanks means).getD i 0
      = (means.filter (fun y => means.getD i 0 < y)).length + 1 := by
  rw [List.getD_eq_getElem _ _ (by rw [storeRanks_length]; exact hi),
      List.getD_eq_getElem _ _ hi]
  unfold storeRanks rankdata_min
  rw [List.getElem_map, List.getElem_map]
  congr 1
  rw [List.filter_map, List.length_map]
  congr 1
  apply List.filter_congr
  intro y _
  simp [neg_lt_neg_iff]

/-- C4 (amended): each candidate's rank is one plus the number of
candidates, counted with multiplicity, whose mean test score is strictly
greater; equal means share the same rank; in particular means
[0.9, 0.9, 0.8] rank as [1, 1, 3]. -/
theorem rank_test_score_min_ties (means : List ℚ) (i j : ℕ)
    (hi : i < means.length) (hj : j < means.length) :
    (storeRanks means).getD i 0
      = (means.filter (fun y => means.getD i 0 < y)).length + 1 ∧
    (means.getD i 0 = means.getD j 0 →
      (storeRanks means).getD i 0 = (storeRanks means).getD j 0) ∧
    storeRanks [9/10, 9/10, 8/10] = [1, 1, 3] := by
  refine ⟨storeRanks_getD means i hi, ?_, ?_⟩
  · intro hij
    rw [storeRanks_getD means i hi, storeRanks_getD means j hj, hij]
  · norm_num [storeRanks, rankdata_min]

/-- Witness for C4's amended theorem at means [0.9, 0.9, 0.8]. -/
theorem rank_test_score_min_ties_witness :
    (storeRanks [9/10, 9/10, 8/10]).getD 0 0
        = (([9/10, 9/10, 8/10] : List ℚ).filter
            (fun y => ([9/10, 9/10, 8/10] : List ℚ).getD 0 0 < y)).length + 1 ∧
    (storeRanks [9/10, 9/10, 8/10]).getD 0 0
        = (storeRanks [9/10, 9/10, 8/10]).getD 1 0 ∧
    storeRanks [9/10, 9/10, 8/10] = [1, 1, 3] :=
  ⟨(rank_test_score_min_ties [9/10, 9/10, 8/10] 0 1
      (by norm_num) (by norm_num)).1,
   (rank_test_score_min_ties [9/10, 9/10, 8/10] 0 1
      (by norm_num) (by norm_num)).2.1 (by norm_num),
   (rank_test_score_min_ties [9/10, 9/10, 8/10] 0 1
      (by norm_num) (by norm_num)).2.2⟩

/-- Modelled from the claim's own wording, for refutation only: a rank
equal to one plus the count of DISTINCT mean scores strictly greater. -/
def specDistinctRank (means : List ℚ) : List ℕ :=
  means.map (fun x => (means.filter (fun y => x < y)).dedup.length + 1)

/-- C4 counterexample: on means [0.9, 0.9, 0.8] the code ranks the third
candidate 3 (two greater entries), while the claim's distinct-count
formula would rank it 2 (one distinct greater score). -/
theorem rank_distinct_count_counterexample :
    storeRanks [9/10, 9/10, 8/10] = [1, 1, 3] ∧
    specDistinctRank [9/10, 9/10, 8/10] = [1, 1, 2] ∧
    storeRanks [9/10, 9/10, 8/10] ≠ specDistinctRank [9/10, 9/10, 8/10] := by
  have h1 : storeRanks [9/10, 9/10, 8/10] = [1, 1, 3] := by
    norm_num [storeRanks, rankdata_min]
  have h2 : specDistinctRank [9/10, 9/10, 8/10] = [1, 1, 2] := by
    norm_num [specDistinctRank, List.dedup_cons_of_mem,
      List.dedup_cons_of_not_mem]
  refine ⟨h1, h2, ?_⟩
  rw [h1, h2]
  decide

/-! ### Failure penalization -/

theorem zipWith_mul_sum_zero (xs w : List ℚ) :
    (∀ x ∈ xs, x = 0) → (List.zipWith (fun a b => a * b) xs w).sum = 0 := by
  induction xs generalizing w with
  | nil => intro h; simp
  | cons x t ih =>
    intro h
    cases w with
    | nil => simp
    | cons b wt =>
      have hx : x = 0 := h x (by simp)
      have ht : ∀ y ∈ t, y = 0 := fun y hy => h y (List.mem_cons_of_mem _ hy)
      simp [hx, ih wt ht]

theorem wavg_zero (xs : List ℚ) (ws : Option (List ℚ))
    (h : ∀ x ∈ xs, x = 0) : wavg xs ws = 0 := by
  cases ws with
  | none => simp [wavg, List.sum_eq_zero h]
  | some w => simp [wavg, zipWith_mul_sum_zero xs w h]

theorem candScores_zero (a : List ℚ) (nS nC i : ℕ)
    (h : ∀ f, f < nS → a.getD (f * nC + i) 0 = 0) :
    ∀ x ∈ candScores a nS nC i, x = 0 := by
  intro x hx
  simp only [candScores, List.mem_map, List.mem_range] at hx
  obtain ⟨f, hf, hfx⟩ := hx
  rw [← hfx]
  exact h f hf

theorem storeMeans_getD_zero (a : List ℚ) (nS nC : ℕ)
    (ws : Option (List ℚ)) (i : ℕ) (hi : i < nC)
    (h : ∀ f, f < nS → a.getD (f * nC + i) 0 = 0) :
    (storeMeans a nS nC ws).getD i 1 = 0 := by
  rw [List.getD_eq_getElem _ _ (by simpa [storeMeans] using hi)]
  unfold storeMeans
  rw [List.getElem_map, List.getElem_range]
  exact wavg_zero _ _ (candScores_zero a nS nC i h)

theorem storeVariances_getD_zero (a : List ℚ) (nS nC : ℕ)
    (ws : Option (List ℚ)) (i : ℕ) (hi : i < nC)
    (h : ∀ f, f < nS → a.getD (f * nC + i) 0 = 0) :
    (storeVariances a nS nC ws).getD i 1 = 0 := by
  rw [List.getD_eq_getElem _ _ (by simpa [storeVariances] using hi)]
  unfold storeVariances
  rw [List.getElem_map, List.getElem_range]
  apply wavg_zero
  intro y hy
  obtain ⟨x, hx, hxy⟩ := List.mem_map.mp hy
  rw [← hxy, candScores_zero a nS nC i h x hx,
      wavg_zero _ _ (candScores_zero a nS nC i h)]
  ring

theorem getD_map_of_lt {α β : Type} (f : α → β) (l : List α) (i : ℕ)
    (d : α) (d' : β) (hi : i < l.length) :
    (l.map f).getD i d' = f (l.getD i d) := by
  induction l generalizing i with
  | nil => simp at hi
  | cons x t ih =>
    cases i with
    | zero => simp
    | succ n => simpa using ih n (Nat.lt_of_succ_lt_succ hi)

theorem storeStds_getD_zero (a : List ℚ) (nS nC : ℕ)
    (ws : Option (List ℚ)) (i : ℕ) (hi : i < nC)
    (h : ∀ f, f < nS → a.getD (f * nC + i) 0 = 0) :
    (storeStds a nS nC ws).getD i 1 = 0 := by
  have hlv : (storeVariances a nS nC ws).length = nC := by
    simp [storeVariances]
  have hv : (storeVariances a nS nC ws).getD i 1 = 0 :=
    storeVariances_getD_zero a nS nC ws i hi h
  show ((storeVariances a nS nC ws).map
      (fun v : ℚ => Real.sqrt (v : ℝ))).getD i 1 = 0
  rw [getD_map_of_lt (fun v : ℚ => Real.sqrt (v : ℝ))
      (storeVariances a nS nC ws) i 1 1 (by rw [hlv]; exact hi)]
  show Real.sqrt (((storeVariances a nS nC ws).getD i 1 : ℚ) : ℝ) = 0
  rw [hv]
  simp

theorem replaceFailures_getD (es : ℚ) (ts : List (FR ℚ)) (j : ℕ)
    (hj : j < ts.length) (hf : ts.getD j (.ok 0) = .failure) :
    (replaceFailures es ts).getD j 0 = es := by
  rw [List.getD_eq_getElem _ _ hj] at hf
  rw [List.getD_eq_getElem _ _ (by simpa [replaceFailures] using hj)]
  unfold replaceFailures
  rw [List.getElem_map, hf]

theorem fold_cand_index_lt (f nS i nC : ℕ) (hf : f < nS) (hi : i < nC) :
    f * nC + i < nS * nC :=
  calc f * nC + i < f * nC + nC := Nat.add_lt_add_left hi _
  _ = (f + 1) * nC := by ring
  _ ≤ nS * nC := Nat.mul_le_mul_right _ hf

/-- C5: `create_cv_results` replaces every `FIT_FAILURE` entry among the
test scores (and among the train scores when present) with the configured
error score before computing statistics; a candidate all of whose folds
failed, with error score 0, gets mean test score exactly 0, standard
deviation exactly 0, and mean train score exactly 0. -/
theorem failure_penalization (l : List (FR ℚ × FR ℚ)) (cands : List Overlay)
    (nS : ℕ) (ws : Option (List ℚ)) (i : ℕ) (hi : i < cands.length)
    (hlen : l.length = nS * cands.length)
    (hfail : ∀ f, f < nS →
      l.getD (f * cands.length + i) (.ok 0, .ok 0) = (.failure, .failure)) :
    (∀ (es : ℚ) (ts : List (FR ℚ)) (j : ℕ), j < ts.length →
      ts.getD j (.ok 0) = .failure → (replaceFailures es ts).getD j 0 = es) ∧
    (create_cv_results (.paired l) cands nS 0 ws).meanTest.getD i 1 = 0 ∧
    (storeStds (testScoresOf (.paired l) 0) nS cands.length ws).getD i 1 = 0 ∧
    (create_cv_results (.paired l) cands nS 0 ws).meanTrain.map
      (fun mt => mt.getD i 1) = some 0 := by
  have hidx : ∀ f, f < nS → f * cands.length + i < l.length := by
    intro f hf
    rw [hlen]
    exact fold_cand_index_lt f nS i cands.length hf hi
  have hcomp : ∀ sel : FR ℚ × FR ℚ → FR ℚ, sel (.failure, .failure) = .failure →
      ∀ f, f < nS →
        (replaceFailures 0 (l.map sel)).getD (f * cands.length + i) 0 = 0 := by
    intro sel hsel f hf
    apply replaceFailures_getD
    · rw [List.length_map]
      exact hidx f hf
    · rw [List.getD_eq_getElem _ _ (by rw [List.length_map]; exact hidx f hf),
          List.getElem_map]
      have hthis := hfail f hf
      rw [List.getD_eq_getElem _ _ (hidx f hf)] at hthis
      rw [hthis, hsel]
  have hfst := hcomp Prod.fst rfl
  have hsnd := hcomp Prod.snd rfl
  refine ⟨fun es ts j hj hf => replaceFailures_getD es ts j hj hf, ?_, ?_, ?_⟩
  · show (storeMeans (replaceFailures 0 (l.map Prod.fst)) nS cands.length
        ws).getD i 1 = 0
    exact storeMeans_getD_zero _ _ _ _ _ hi hfst
  · exact storeStds_getD_zero _ _ _ _ _ hi hfst
  · show some ((storeMeans (replaceFailures 0 (l.map Prod.snd)) nS
        cands.length ws).getD i 1) = some 0
    rw [storeMeans_getD_zero _ _ _ _ _ hi hsnd]

/-- Witness for C5: one candidate, two folds, both folds failed. -/
theorem failure_penalization_witness :
    (create_cv_results (.paired [(.failure, .failure), (.failure, .failure)])
        [[("a", 1)]] 2 0 none).meanTest.getD 0 1 = 0 ∧
    (storeStds (testScoresOf
        (.paired [(.failure, .failure), (.failure, .failure)]) 0) 2 1
        none).getD 0 1 = 0 ∧
    (create_cv_results (.paired [(.failure, .failure), (.failure, .failure)])
        [[("a", 1)]] 2 0 none).meanTrain.map (fun mt => mt.getD 0 1)
      = some 0 :=
  ⟨(failure_penalization [(.failure, .failure), (.failure, .failure)]
      [[("a", 1)]] 2 none 0 (by norm_num) (by norm_num) (by decide)).2.1,
   (failure_penalization [(.failure, .failure), (.failure, .failure)]
      [[("a", 1)]] 2 none 0 (by norm_num) (by norm_num) (by decide)).2.2.1,
   (failure_penalization [(.failure, .failure), (.failure, .failure)]
      [[("a", 1)]] 2 none 0 (by norm_num) (by norm_num) (by decide)).2.2.2⟩

/-- C8: on 2 folds and 3 candidates whose per-candidate, per-fold test
scores are [[0.7, 0.8], [0.9, 0.9], [0.5, 0.5]] (handed over fold-major,
as `_store` expects), the aggregator produces mean test scores
[0.75, 0.9, 0.5] and ranks [2, 1, 3], and `get_best_params` returns the
overlay of candidate index 1, the first candidate ranked 1. -/
theorem scenario_ranks_and_best :
    (create_cv_results
        (.single [.ok (7/10), .ok (9/10), .ok (5/10),
                  .ok (8/10), .ok (9/10), .ok (5/10)])
        [[("a", 1)], [("a", 2)], [("a", 3)]] 2 0 none).meanTest
      = [3/4, 9/10, 1/2] ∧
    (create_cv_results
        (.single [.ok (7/10), .ok (9/10), .ok (5/10),
                  .ok (8/10), .ok (9/10), .ok (5/10)])
        [[("a", 1)], [("a", 2)], [("a", 3)]] 2 0 none).rankTest
      = [2, 1, 3] ∧
    get_best_params [[("a", 1)], [("a", 2)], [("a", 3)]]
      (create_cv_results
        (.single [.ok (7/10), .ok (9/10), .ok (5/10),
                  .ok (8/10), .ok (9/10), .ok (5/10)])
        [[("a", 1)], [("a", 2)], [("a", 3)]] 2 0 none)
      = some [("a", 2)] := by
  have hm : storeMeans (testScoresOf
      (.single [.ok (7/10), .ok (9/10), .ok (5/10),
                .ok (8/10), .ok (9/10), .ok (5/10)]) 0) 2 3 none
      = [3/4, 9/10, 1/2] := by
    norm_num [storeMeans, candScores, wavg, testScoresOf, replaceFailures,
      List.range_succ]
  have hr : storeRanks [3/4, 9/10, 1/2] = [2, 1, 3] := by
    norm_num [storeRanks, rankdata_min]
  refine ⟨?_, ?_, ?_⟩
  · simpa [create_cv_results] using hm
  · simp only [create_cv_results, List.length_cons, List.length_nil]
    rw [show (0 + 1 + 1 + 1 : ℕ) = 3 by norm_num] at *
    rw [hm, hr]
  · simp only [get_best_params, create_cv_results, List.length_cons,
      List.length_nil]
    rw [show (0 + 1 + 1 + 1 : ℕ) = 3 by norm_num] at *
    rw [hm, hr]
    norm_num [List.findIdx?]
    rfl

/-! ### Masked parameter columns -/

theorem mem_foldl_insertDedup (l : List String) (acc : List String)
    (nm : String) :
    nm ∈ l.foldl (fun acc n => if n ∈ acc then acc else acc ++ [n]) acc
      ↔ nm ∈ acc ∨ nm ∈ l := by
  induction l generalizing acc with
  | nil => simp
  | cons x t ih =>
    simp only [List.foldl_cons]
    by_cases hx : x ∈ acc
    · rw [if_pos hx, ih]
      constructor
      · rintro (h | h)
        · exact Or.inl h
        · exact Or.inr (List.mem_cons_of_mem _ h)
      · rintro (h | h)
        · exact Or.inl h
        · rcases List.mem_cons.mp h with rfl | h
          · exact Or.inl hx
          · exact Or.inr h
    · rw [if_neg hx, ih]
      simp [List.mem_append, List.mem_cons, or_assoc]

theorem mem_observedNames (cands : List Overlay) (nm : String) :
    nm ∈ observedNames cands ↔ ∃ ov ∈ cands, nm ∈ ov.map Prod.fst := by
  unfold observedNames
  rw [mem_foldl_insertDedup]
  simp [List.mem_flatten]

theorem overlayLookup_eq_some (nm : String) (ov : Overlay) (v : ℚ)
    (hnd : (ov.map Prod.fst).Nodup) :
    overlayLookup nm ov = some v ↔ (nm, v) ∈ ov := by
  induction ov with
  | nil => simp [overlayLookup]
  | cons p t ih =>
    obtain ⟨a, b⟩ := p
    rw [List.map_cons, List.nodup_cons] at hnd
    by_cases ha : a = nm
    · subst ha
      have hnot : ∀ w : ℚ, (a, w) ∉ t := by
        intro w hw
        exact hnd.1 (List.mem_map.mpr ⟨(a, w), hw, rfl⟩)
      simp only [overlayLookup, List.find?]
      rw [show ((a, b).1 == a) = true by simp]
      simp only [Option.map_some', Option.some.injEq, List.mem_cons]
      constructor
      · intro h
        exact Or.inl (by rw [h])
      · rintro (h | h)
        · injection h with h1 h2
          exact h2.symm
        · exact absurd h (hnot v)
    · simp only [overlayLookup, List.find?]
      rw [show ((a, b).1 == nm) = false by simpa using ha]
      rw [show ((t.find? (fun p => p.1 == nm)).map Prod.snd)
            = overlayLookup nm t from rfl]
      rw [ih hnd.2]
      simp only [List.mem_cons, Prod.mk.injEq]
      constructor
      · exact fun h => Or.inr h
      · rintro (⟨h1, h2⟩ | h)
        · exact absurd h1.symm ha
        · exact h

theorem overlayLookup_eq_none (nm : String) (ov : Overlay) :
    overlayLookup nm ov = none ↔ ∀ v : ℚ, (nm, v) ∉ ov := by
  induction ov with
  | nil => simp [overlayLookup]
  | cons p t ih =>
    obtain ⟨a, b⟩ := p
    by_cases ha : a = nm
    · subst ha
      simp only [overlayLookup, List.find?]
      rw [show ((a, b).1 == a) = true by simp]
      simp only [Option.map_some']
      constructor
      · intro h
        simp at h
      · intro h
        exact absurd (List.mem_cons_self _ _) (h b)
    · simp only [overlayLookup, List.find?]
      rw [show ((a, b).1 == nm) = false by simpa using ha]
      rw [show ((t.find? (fun p => p.1 == nm)).map Prod.snd)
            = overlayLookup nm t from rfl]
      rw [ih]
      constructor
      · intro h v hv
        rcases List.mem_cons.mp hv with heq | hmem
        · injection heq with h1 h2
          exact ha h1.symm
        · exact h v hmem
      · intro h v hv
        exact h v (List.mem_cons_of_mem _ hv)

/-- C9: the table has one masked `param_<name>` column per distinct name
observed across the candidate overlays, and a candidate's cell carries its
value exactly when its overlay binds the name, and is masked otherwise. -/
theorem masked_param_columns (cands : List Overlay)
    (hnd : ∀ ov ∈ cands, (ov.map Prod.fst).Nodup) :
    (∀ nm : String,
      nm ∈ observedNames cands ↔ ∃ ov ∈ cands, nm ∈ ov.map Prod.fst) ∧
    (∀ nm : String, nm ∈ observedNames cands →
      ("param_" ++ nm, cands.map (fun ov => overlayLookup nm ov))
        ∈ paramColumns cands) ∧
    (∀ (nm : String) (i : ℕ), i < cands.length →
      (∀ v : ℚ,
        (cands.map (fun ov => overlayLookup nm ov)).getD i none = some v
          ↔ (nm, v) ∈ cands.getD i []) ∧
      ((cands.map (fun ov => overlayLookup nm ov)).getD i none = none
          ↔ ∀ v : ℚ, (nm, v) ∉ cands.getD i [])) := by
  refine ⟨fun nm => mem_observedNames cands nm, ?_, ?_⟩
  · intro nm hm
    unfold paramColumns
    exact List.mem_map_of_mem _ hm
  · intro nm i hi
    rw [getD_map_of_lt (fun ov => overlayLookup nm ov) cands i [] none hi]
    have hin : cands.getD i [] ∈ cands := by
      rw [List.getD_eq_getElem _ _ hi]
      exact List.getElem_mem hi
    exact ⟨fun v => overlayLookup_eq_some nm _ v (hnd _ hin),
      overlayLookup_eq_none nm _⟩

/-- Witness for C9 at the claim's example, candidates A = {n: 3} and
B = {k: 5}: the `param_n` column exists, A's cell holds 3 and B's cell is
masked. -/
theorem masked_param_columns_witness :
    ("param_" ++ "n",
      ([[("n", 3)], [("k", 5)]] : List Overlay).map
        (fun ov => overlayLookup "n" ov))
      ∈ paramColumns [[("n", 3)], [("k", 5)]] ∧
    ((([[("n", 3)], [("k", 5)]] : List Overlay).map
        (fun ov => overlayLookup "n" ov)).getD 0 none = some 3
      ↔ ("n", (3 : ℚ)) ∈ ([[("n", 3)], [("k", 5)]] : List Overlay).getD 0 []) ∧
    ((([[("n", 3)], [("k", 5)]] : List Overlay).map
        (fun ov => overlayLookup "n" ov)).getD 1 none = none
      ↔ ∀ v : ℚ, ("n", v) ∉ ([[("n", 3)], [("k", 5)]] : List Overlay).getD 1 []) :=
  ⟨(masked_param_columns [[("n", 3)], [("k", 5)]] (by decide)).2.1 "n"
      (by decide),
   ((masked_param_columns [[("n", 3)], [("k", 5)]] (by decide)).2.2 "n" 0
      (by decide)).1 3,
   ((masked_param_columns [[("n", 3)], [("k", 5)]] (by decide)).2.2 "n" 1
      (by decide)).2⟩

end DaskSearchCV
